import Mathlib

/-!
Verification of the platform-connection orchestrator (`useConnectionStatus`).

The hook keeps three pieces of reactive state: the `connections` ledger (one
`ConnectionState` per requested platform id), the sequencer cursor
`currentIndex` (sentinel `-1` meaning "not started"), and the `allComplete`
flag.  `runConnection(index, credentials)` writes a `'connecting'` status and
then the attempt's terminal status into the record at `index`;
`retryConnection` just forwards to it.  A sequencer effect walks the cursor
through the ledger with a 500 time-unit settle delay between steps.  All of
these are embedded below as pure state-passing functions; the connector and
the mock fallback's random draws are supplied as explicit oracle arguments.
-/

namespace AltrionConn

/-- Status of a single connection record, mirroring the union
`'pending' | 'connecting' | 'success' | 'error'` used by the hook. -/
inductive Status where
  | pending
  | connecting
  | success
  | error
  deriving DecidableEq

/-- One ledger entry, mirroring `ConnectionState` (`{ platformId, status }`). -/
structure ConnectionState where
  platformId : String
  status : Status
  deriving DecidableEq

/-- Credentials forwarded to the connector
(`PlatformCredentials | Record<string, string>`), kept as a key-value list. -/
def Creds : Type := List (String × String)

instance : DecidableEq Creds := inferInstanceAs (DecidableEq (List (String × String)))

/-- Resolution of one connector call: the promise resolves to `'success'` or
`'error'`, or it rejects (throws). -/
inductive ConnectorOutcome where
  | success
  | error
  deriving DecidableEq

/-- Behaviour of one connector invocation. -/
inductive ConnectorResult where
  | ok (o : ConnectorOutcome)
  | exn
  deriving DecidableEq

/-- The caller-supplied `connectPlatform` function, as a deterministic oracle
from the platform id and the credentials to the call's behaviour. -/
def Connector : Type := String → Option Creds → ConnectorResult

/-- The status the hook stores for a resolved connector outcome. -/
def ConnectorOutcome.toStatus : ConnectorOutcome → Status
  | .success => Status.success
  | .error => Status.error

/-- The hook's reactive state: `connections`, `currentIndex` (initially `-1`),
`allComplete` (initially `false`). -/
structure HookState where
  connections : List ConnectionState
  currentIndex : Int
  allComplete : Bool
  deriving DecidableEq

/-- State right after construction:
`platformIds.map((id) => ({ platformId: id, status: 'pending' }))`,
`currentIndex = -1`, `allComplete = false`. -/
def initState (platformIds : List String) : HookState :=
  { connections := platformIds.map (fun id => { platformId := id, status := Status.pending })
    currentIndex := -1
    allComplete := false }

/-- Derived signal:
`connections.filter((c) => c.status === 'success').length`. -/
def successCount (s : HookState) : Nat :=
  (s.connections.filter (fun c => decide (c.status = Status.success))).length

/-- JavaScript array indexing `arr[index]` for a numeric index that may be
negative or out of range: `undefined` becomes `none`. -/
def listGetInt {α : Type} (l : List α) (index : Int) : Option α :=
  if index < 0 then none else l.get? index.toNat

/-- Index-aware map, mirroring JavaScript `prev.map((c, i) => ...)`; the
first numeric argument is the index carried by the head of the list. -/
def mapIdxFrom (f : Nat → ConnectionState → ConnectionState) :
    Nat → List ConnectionState → List ConnectionState
  | _, [] => []
  | n, c :: cs => f n c :: mapIdxFrom f (n + 1) cs

/-- The ledger write used by every mutation in the hook:
`prev.map((c, i) => (i === index ? { ...c, status } : c))`. -/
def setStatusInt (conns : List ConnectionState) (index : Int) (st : Status) :
    List ConnectionState :=
  mapIdxFrom (fun i c => if (i : Int) = index then { c with status := st } else c) 0 conns

/-- Terminal status an attempt records for its target: with a connector, the
resolved outcome, or `'error'` when the call throws (the `catch` branch);
without one, the mock fallback `Math.random() > 0.1` with random draw `r2`. -/
def attemptStatus (connector : Option Connector) (pid : String) (creds : Option Creds)
    (r2 : ℚ) : Status :=
  match connector with
  | some f =>
    match f pid creds with
    | .ok o => o.toStatus
    | .exn => Status.error
  | none => if (1 : ℚ) / 10 < r2 then Status.success else Status.error

/-- Randomized delay of the mock fallback,
`1500 + Math.random() * 1500` with random draw `r1`. -/
def fallbackDelay (r1 : ℚ) : ℚ := 1500 + r1 * 1500

/-- The states the hook passes through while `runConnection(index, credentials)`
runs: the guard `const platformId = connections[index]?.platformId;
if (!platformId) return;` bails out both when the index is out of range
(`undefined`) and when the stored platform id is the falsy empty string; then
comes the `'connecting'` write, then the terminal write. -/
def runConnectionTrace (connector : Option Connector) (r2 : ℚ) (s : HookState)
    (index : Int) (creds : Option Creds) : List HookState :=
  match listGetInt s.connections index with
  | none => [s]
  | some c =>
    if c.platformId = "" then [s]
    else
      let mid : HookState :=
        { s with connections := setStatusInt s.connections index Status.connecting }
      let fin : HookState :=
        { mid with connections :=
            setStatusInt mid.connections index (attemptStatus connector c.platformId creds r2) }
      [s, mid, fin]

/-- State after `runConnection` has fully resolved. -/
def runConnectionFinal (connector : Option Connector) (r2 : ℚ) (s : HookState)
    (index : Int) (creds : Option Creds) : HookState :=
  (runConnectionTrace connector r2 s index creds).getLastD s

/-- `retryConnection(index, credentials)` simply calls `runConnection`. -/
def retryConnection (connector : Option Connector) (r2 : ℚ) (s : HookState)
    (index : Int) (creds : Option Creds) : HookState :=
  runConnectionFinal connector r2 s index creds

/-- Observable operations on the hook state: the auto-start effect
(`if (autoStart && currentIndex === -1 && connections.length > 0)`), one full
sequencer step for the current cursor (attempt plus the scheduled
advance-or-complete write), and a user-triggered retry. -/
inductive Ev where
  | startCheck
  | seqStep
  | retry (index : Int) (creds : Option Creds)

/-- Whether an event is a user-triggered retry. -/
def Ev.isRetry : Ev → Bool
  | .retry _ _ => true
  | _ => false

/-- One observable step of the hook.  `startCheck` moves the cursor to 0 under
the auto-start guard; `seqStep` is the sequencer effect body for an active
cursor (`runConnection(currentIndex)` then `setCurrentIndex(currentIndex + 1)`
or `setAllComplete(true)` after the settle delay); `retry` forwards to
`retryConnection`. -/
def stepEv (autoStart : Bool) (connector : Option Connector) (r2 : ℚ)
    (s : HookState) : Ev → HookState
  | .startCheck =>
    if autoStart = true ∧ s.currentIndex = -1 ∧ 0 < s.connections.length then
      { s with currentIndex := 0 }
    else s
  | .seqStep =>
    if 0 ≤ s.currentIndex ∧ s.currentIndex < (s.connections.length : Int) then
      let s' := runConnectionFinal connector r2 s s.currentIndex none
      if s.currentIndex < (s.connections.length : Int) - 1 then
        { s' with currentIndex := s.currentIndex + 1 }
      else
        { s' with allComplete := true }
    else s
  | .retry index creds => retryConnection connector r2 s index creds

/-- Status of the record at position `k` of a ledger. -/
def statusAt (conns : List ConnectionState) (k : Nat) : Option Status :=
  (conns.get? k).map (fun c => c.status)

/-- Platform id of the record at position `k` of a ledger. -/
def pidAt (conns : List ConnectionState) (k : Nat) : Option String :=
  (conns.get? k).map (fun c => c.platformId)

/-- Time auto-run attempt `i` occupies before the settle delay: the connector
call's duration `d i` (supplied by an oracle), or nothing at all when the
record's platform id is the empty string — then `runConnection`'s falsy guard
`if (!platformId) return;` bails out immediately and no connector is called. -/
def attemptDuration (ids : List String) (d : Nat → Nat) (i : Nat) : Nat :=
  if ids.get? i = some "" then 0 else d i

/-- Start time of auto-run attempt `i`: each step takes its attempt's
duration (zero for a skipped empty-platform-id record) and then the fixed
500 time-unit settle delay
(`setTimeout(() => setCurrentIndex(currentIndex + 1), 500)`). -/
def startTimeF (ids : List String) (d : Nat → Nat) : Nat → Nat
  | 0 => 0
  | i + 1 => startTimeF ids d i + attemptDuration ids d i + 500

/-- Time at which auto-run attempt `i` has resolved: its outcome's recording
time for a performed attempt, and just its start time for a skipped one. -/
def outcomeTimeF (ids : List String) (d : Nat → Nat) (i : Nat) : Nat :=
  startTimeF ids d i + attemptDuration ids d i

/-- A ledger snapshot during an auto-run, together with the time at which the
hook reaches it and the `allComplete` flag. -/
structure TimedLedger where
  time : Nat
  conns : List ConnectionState
  allComplete : Bool
  deriving DecidableEq

/-- Ledger trajectory of an uninterrupted auto-run with no retries, from the
attempt at index `i` onwards.  Each step is the sequencer effect body: it
runs `runConnection(currentIndex)` — whose guard
`const platformId = connections[index]?.platformId; if (!platformId) return;`
bails out with no writes when the lookup is `undefined` or the stored
platform id is the falsy empty string — and in the non-skipped case performs
the `'connecting'` write at the attempt's start and the outcome write `o i`
when the connector resolves `d i` time units later; either way the 500-unit
settle delay then precedes the next index (or `setAllComplete(true)` after
the last index).  The fuel argument only bounds the recursion; `autoTrace`
supplies enough for the whole ledger. -/
def autoTraceAux (o : Nat → ConnectorOutcome) (d : Nat → Nat) :
    Nat → List ConnectionState → Nat → Nat → List TimedLedger
  | 0, _, _, _ => []
  | fuel + 1, conns, i, t =>
    if i < conns.length then
      match listGetInt conns (i : Int) with
      | none =>
        if i + 1 < conns.length then
          autoTraceAux o d fuel conns (i + 1) (t + 500)
        else
          [{ time := t + 500, conns := conns, allComplete := true }]
      | some c =>
        if c.platformId = "" then
          if i + 1 < conns.length then
            autoTraceAux o d fuel conns (i + 1) (t + 500)
          else
            [{ time := t + 500, conns := conns, allComplete := true }]
        else
          let c1 := setStatusInt conns (i : Int) Status.connecting
          let c2 := setStatusInt c1 (i : Int) ((o i).toStatus)
          { time := t, conns := c1, allComplete := false } ::
            { time := t + d i, conns := c2, allComplete := false } ::
              (if i + 1 < conns.length then
                autoTraceAux o d fuel c2 (i + 1) (t + d i + 500)
              else
                [{ time := t + d i + 500, conns := c2, allComplete := true }])
    else []

/-- Full observable trajectory of an auto-run with no retries: the freshly
constructed ledger followed by the sequencer's writes. -/
def autoTrace (ids : List String) (o : Nat → ConnectorOutcome) (d : Nat → Nat) :
    List TimedLedger :=
  { time := 0, conns := (initState ids).connections, allComplete := false } ::
    autoTraceAux o d ids.length (initState ids).connections 0 0

/-- Modelled from the spec: the reactive framework hosting the hook is not
part of this repository.  Each orchestration run (each mount of the hook)
owns its own state cells; the world keeps the hook state of every live run,
keyed by a run id, and a discarded run no longer appears among them. -/
structure World where
  runs : List (Nat × HookState)
  deriving DecidableEq

/-- Modelled from the spec: a deferred write (a late-resolving connector
callback or timer callback) carries the identity of the run that issued it
and updates only that run's state cells — the "still the active run" guard.
A write whose run is no longer live changes nothing, and a write can never
address another run's cells. -/
def deferredWrite (w : World) (rid : Nat) (f : HookState → HookState) : World :=
  { runs := w.runs.map (fun p => if p.1 = rid then (p.1, f p.2) else p) }

/-- Hook state of run `rid`, when that run is live. -/
def World.ledgerOf (w : World) (rid : Nat) : Option HookState :=
  (w.runs.find? (fun p => p.1 == rid)).map (fun p => p.2)

theorem mapIdxFrom_get? (f : Nat → ConnectionState → ConnectionState) :
    ∀ (l : List ConnectionState) (n k : Nat),
      (mapIdxFrom f n l).get? k = (l.get? k).map (f (n + k))
  | [], n, k => by simp [mapIdxFrom]
  | c :: cs, n, 0 => by simp [mapIdxFrom]
  | c :: cs, n, k + 1 => by
    have ih := mapIdxFrom_get? f cs (n + 1) k
    simp only [mapIdxFrom, List.get?_cons_succ, ih]
    have : n + 1 + k = n + (k + 1) := by omega
    rw [this]

theorem length_mapIdxFrom (f : Nat → ConnectionState → ConnectionState) :
    ∀ (n : Nat) (l : List ConnectionState), (mapIdxFrom f n l).length = l.length
  | _, [] => rfl
  | n, c :: cs => by simp [mapIdxFrom, length_mapIdxFrom f (n + 1) cs]

theorem length_setStatusInt (conns : List ConnectionState) (index : Int) (st : Status) :
    (setStatusInt conns index st).length = conns.length :=
  length_mapIdxFrom _ 0 conns

theorem get?_setStatusInt (conns : List ConnectionState) (index : Int) (st : Status)
    (k : Nat) :
    (setStatusInt conns index st).get? k
      = (conns.get? k).map
          (fun c => if (k : Int) = index then { c with status := st } else c) := by
  have h := mapIdxFrom_get?
    (fun i c => if (i : Int) = index then { c with status := st } else c) conns 0 k
  simpa using h

theorem statusAt_setStatusInt_self (conns : List ConnectionState) (j : Nat) (st : Status)
    (h : j < conns.length) :
    statusAt (setStatusInt conns (j : Int) st) j = some st := by
  obtain ⟨c, hc⟩ : ∃ c, conns.get? j = some c := by
    cases hg : conns.get? j with
    | none =>
      have := List.get?_eq_none.mp hg
      omega
    | some c => exact ⟨c, rfl⟩
  rw [statusAt, get?_setStatusInt, hc]
  simp

theorem statusAt_setStatusInt_ne (conns : List ConnectionState) (index : Int) (st : Status)
    (k : Nat) (h : (k : Int) ≠ index) :
    statusAt (setStatusInt conns index st) k = statusAt conns k := by
  simp only [statusAt, get?_setStatusInt, if_neg h]
  cases conns.get? k <;> rfl

theorem get?_setStatusInt_none (conns : List ConnectionState) (index : Int) (st : Status)
    (k : Nat) :
    (setStatusInt conns index st).get? k = none ↔ conns.get? k = none := by
  rw [get?_setStatusInt]
  cases conns.get? k <;> simp

theorem platformId_setStatusInt (conns : List ConnectionState) (index : Int) (st : Status) :
    (setStatusInt conns index st).map (fun c => c.platformId)
      = conns.map (fun c => c.platformId) := by
  unfold setStatusInt
  generalize 0 = n
  induction conns generalizing n with
  | nil => rfl
  | cons c cs ih =>
    simp only [mapIdxFrom, List.map_cons, ih]
    by_cases h : (n : Int) = index <;> simp [h]

theorem listGetInt_natCast (conns : List ConnectionState) (j : Nat) :
    listGetInt conns (j : Int) = conns.get? j := by
  simp [listGetInt]

theorem listGetInt_none (conns : List ConnectionState) (index : Int)
    (h : index < 0 ∨ (conns.length : Int) ≤ index) : listGetInt conns index = none := by
  rcases h with h | h
  · simp [listGetInt, h]
  · have hn : ¬ index < 0 := by omega
    have hlen : conns.length ≤ index.toNat := by omega
    simp [listGetInt, hn, List.get?_eq_getElem?, List.getElem?_eq_none hlen]

theorem every_initState_pending (ids : List String) :
    ∀ c ∈ (initState ids).connections, c.status = Status.pending := by
  intro c hc
  simp only [initState, List.mem_map] at hc
  obtain ⟨id, _, rfl⟩ := hc
  rfl

theorem successCount_initState (ids : List String) : successCount (initState ids) = 0 := by
  induction ids with
  | nil => rfl
  | cons a t ih => exact ih

theorem platformIds_initState : ∀ ids : List String,
    (initState ids).connections.map (fun c => c.platformId) = ids
  | [] => rfl
  | a :: t => by
    have ih := platformIds_initState t
    simp only [initState, List.map_cons] at ih ⊢
    rw [ih]

theorem listGetInt_nil (index : Int) :
    listGetInt ([] : List ConnectionState) index = none := by
  unfold listGetInt
  split <;> simp

theorem runConnectionTrace_of_none (connector : Option Connector) (r2 : ℚ)
    (s : HookState) (index : Int) (creds : Option Creds)
    (h : listGetInt s.connections index = none) :
    runConnectionTrace connector r2 s index creds = [s] := by
  unfold runConnectionTrace
  rw [h]

theorem runConnectionFinal_of_none (connector : Option Connector) (r2 : ℚ)
    (s : HookState) (index : Int) (creds : Option Creds)
    (h : listGetInt s.connections index = none) :
    runConnectionFinal connector r2 s index creds = s := by
  unfold runConnectionFinal
  rw [runConnectionTrace_of_none connector r2 s index creds h]
  rfl

/-- Claim C1: for every run started with a non-empty ordered platform id
list, immediately after construction the ledger contains exactly one record
per input id, in input order, every record has status `'pending'`,
`allComplete` is false, and `successCount` is 0. -/
theorem claim1_initState (ids : List String) (_h : ids ≠ []) :
    (initState ids).connections.map (fun c => c.platformId) = ids ∧
    (initState ids).connections.length = ids.length ∧
    (∀ c ∈ (initState ids).connections, c.status = Status.pending) ∧
    (initState ids).allComplete = false ∧
    successCount (initState ids) = 0 := by
  refine ⟨platformIds_initState ids, ?_, every_initState_pending ids, rfl,
    successCount_initState ids⟩
  simp [initState]

theorem claim1_initState_witness :
    (["A", "B", "C"] : List String) ≠ [] ∧
    ((initState ["A", "B", "C"]).connections.map (fun c => c.platformId)
        = ["A", "B", "C"] ∧
      (initState ["A", "B", "C"]).connections.length
        = (["A", "B", "C"] : List String).length ∧
      (∀ c ∈ (initState ["A", "B", "C"]).connections, c.status = Status.pending) ∧
      (initState ["A", "B", "C"]).allComplete = false ∧
      successCount (initState ["A", "B", "C"]) = 0) :=
  ⟨by decide, claim1_initState ["A", "B", "C"] (by decide)⟩

/-- Claim C2 (counterexample): for the empty platform id list, `allComplete`
is `false` immediately after construction, not `true` as the claim states. -/
theorem claim2_cex : (initState ([] : List String)).allComplete = false := rfl

/-- Claim C2 (amended): for the empty platform id list the ledger is empty
and `successCount` is 0, no operation ever changes the state (in particular
no attempt is run), and `allComplete` stays `false` forever — the auto-start
guard `connections.length > 0` and the sequencer guard
`currentIndex >= 0 && currentIndex < connections.length` never fire, so
`setAllComplete(true)` is never scheduled. -/
theorem claim2_emptyRun (autoStart : Bool) (connector : Option Connector) (r2 : ℚ)
    (evs : List Ev) :
    (initState ([] : List String)).connections = [] ∧
    successCount (initState []) = 0 ∧
    evs.foldl (stepEv autoStart connector r2) (initState []) = initState [] ∧
    (evs.foldl (stepEv autoStart connector r2) (initState [])).allComplete = false := by
  have hstep : ∀ e, stepEv autoStart connector r2 (initState []) e = initState [] := by
    intro e
    cases e with
    | startCheck => simp [stepEv, initState]
    | seqStep => simp [stepEv, initState]
    | retry index creds =>
      show retryConnection connector r2 (initState []) index creds = initState []
      exact runConnectionFinal_of_none connector r2 (initState []) index creds
        (listGetInt_nil index)
  have hfold : evs.foldl (stepEv autoStart connector r2) (initState []) = initState [] := by
    induction evs with
    | nil => rfl
    | cons e t ih =>
      rw [List.foldl_cons, hstep e]
      exact ih
  refine ⟨rfl, rfl, hfold, ?_⟩
  rw [hfold]
  rfl

/-- Claim C4: for every index outside the ledger's valid range,
`retryConnection(index, credentials)` is a no-op: the whole hook state — the
ledger, `currentIndex`, `allComplete`, `successCount` — is unchanged, and the
call returns normally (the guard bails out; there is no error path). -/
theorem claim4_retry_out_of_range (connector : Option Connector) (r2 : ℚ)
    (s : HookState) (index : Int) (creds : Option Creds)
    (h : index < 0 ∨ (s.connections.length : Int) ≤ index) :
    runConnectionTrace connector r2 s index creds = [s] ∧
    retryConnection connector r2 s index creds = s ∧
    successCount (retryConnection connector r2 s index creds) = successCount s := by
  have hnone := listGetInt_none s.connections index h
  have hfin : retryConnection connector r2 s index creds = s :=
    runConnectionFinal_of_none connector r2 s index creds hnone
  exact ⟨runConnectionTrace_of_none connector r2 s index creds hnone, hfin, by rw [hfin]⟩

theorem claim4_retry_out_of_range_witness :
    (((5 : Int) < 0 ∨ ((initState ["A"]).connections.length : Int) ≤ 5) ∧
      (runConnectionTrace none 0 (initState ["A"]) 5 none = [initState ["A"]] ∧
        retryConnection none 0 (initState ["A"]) 5 none = initState ["A"] ∧
        successCount (retryConnection none 0 (initState ["A"]) 5 none)
          = successCount (initState ["A"]))) :=
  ⟨by decide, claim4_retry_out_of_range none 0 (initState ["A"]) 5 none (by decide)⟩

/-- Claim C5 (counterexample): index 0 is a valid ledger index of the run
built from the single platform id `""`, yet a retry with a connector that
returns `'success'` transitions nothing: the guard `if (!platformId) return`
treats the stored empty string as falsy and bails out, so the record stays
`'pending'` instead of going `connecting → success` as the claim requires. -/
theorem claim5_cex :
    runConnectionTrace (some (fun _ _ => ConnectorResult.ok ConnectorOutcome.success)) 0
        (initState [""]) 0 none = [initState [""]] ∧
    statusAt (retryConnection (some (fun _ _ => ConnectorResult.ok ConnectorOutcome.success))
        0 (initState [""]) 0 none).connections 0 = some Status.pending :=
  ⟨rfl, rfl⟩

/-- Claim C5 (amended): for every valid index `j` whose record's platform id
is non-empty, `retryConnection(j, credentials)` writes only the record at `j`
— its status goes `connecting` and then `success`/`error` per the connector
outcome — while the statuses of all other records, the cursor `currentIndex`
and the `allComplete` flag are unchanged throughout the retry.  (When the
stored platform id is the empty string, the falsy guard instead makes the
retry a complete no-op.) -/
theorem claim5_retry_frame (connector : Option Connector) (r2 : ℚ) (s : HookState)
    (j : Nat) (c : ConnectionState) (creds : Option Creds)
    (hc : s.connections.get? j = some c) (hpid : c.platformId ≠ "") :
    ((runConnectionTrace connector r2 s (j : Int) creds).map
        (fun t => statusAt t.connections j)
      = [statusAt s.connections j, some Status.connecting,
          some (attemptStatus connector c.platformId creds r2)]) ∧
    (∀ t ∈ runConnectionTrace connector r2 s (j : Int) creds,
      t.currentIndex = s.currentIndex ∧ t.allComplete = s.allComplete ∧
        ∀ k : Nat, k ≠ j → statusAt t.connections k = statusAt s.connections k) := by
  have hj : j < s.connections.length := (List.get?_eq_some.mp hc).1
  have hget : listGetInt s.connections (j : Int) = some c := by
    rw [listGetInt_natCast]
    exact hc
  have htr : runConnectionTrace connector r2 s (j : Int) creds
      = [s,
          { s with connections := setStatusInt s.connections (j : Int) Status.connecting },
          { s with connections := setStatusInt (setStatusInt s.connections (j : Int) Status.connecting) (j : Int) (attemptStatus connector c.platformId creds r2) }] := by
    unfold runConnectionTrace
    rw [hget]
    simp [hpid]
  have hj1 : j < (setStatusInt s.connections (j : Int) Status.connecting).length := by
    rw [length_setStatusInt]
    exact hj
  constructor
  · rw [htr]
    simp only [List.map_cons, List.map_nil]
    rw [statusAt_setStatusInt_self s.connections j Status.connecting hj,
      statusAt_setStatusInt_self _ j _ hj1]
  · intro t ht
    rw [htr] at ht
    have hcast : ∀ k : Nat, k ≠ j → (k : Int) ≠ (j : Int) := by
      intro k hk
      exact_mod_cast hk
    rcases List.mem_cons.mp ht with rfl | ht
    · exact ⟨rfl, rfl, fun k _ => rfl⟩
    rcases List.mem_cons.mp ht with rfl | ht
    · refine ⟨rfl, rfl, fun k hk => ?_⟩
      exact statusAt_setStatusInt_ne s.connections (j : Int) Status.connecting k (hcast k hk)
    rcases List.mem_cons.mp ht with rfl | ht
    · refine ⟨rfl, rfl, fun k hk => ?_⟩
      rw [statusAt_setStatusInt_ne _ (j : Int) _ k (hcast k hk),
        statusAt_setStatusInt_ne _ (j : Int) _ k (hcast k hk)]
    · exact absurd ht (List.not_mem_nil t)

theorem claim5_retry_frame_witness :
    ((initState ["A", "B"]).connections.get? 1
        = some { platformId := "B", status := Status.pending } ∧
      ("B" : String) ≠ "" ∧
      (((runConnectionTrace (some (fun _ _ => ConnectorResult.ok ConnectorOutcome.success)) 0
            (initState ["A", "B"]) (1 : Nat) none).map
          (fun t => statusAt t.connections 1)
        = [statusAt (initState ["A", "B"]).connections 1, some Status.connecting,
            some (attemptStatus (some (fun _ _ => ConnectorResult.ok ConnectorOutcome.success))
              "B" none 0)]) ∧
        (∀ t ∈ runConnectionTrace (some (fun _ _ => ConnectorResult.ok ConnectorOutcome.success))
            0 (initState ["A", "B"]) (1 : Nat) none,
          t.currentIndex = (initState ["A", "B"]).currentIndex ∧
            t.allComplete = (initState ["A", "B"]).allComplete ∧
            ∀ k : Nat, k ≠ 1 →
              statusAt t.connections k = statusAt (initState ["A", "B"]).connections k))) :=
  ⟨by decide, by decide,
    claim5_retry_frame (some (fun _ _ => ConnectorResult.ok ConnectorOutcome.success)) 0
      (initState ["A", "B"]) 1 { platformId := "B", status := Status.pending } none
      (by decide) (by decide)⟩

theorem runConnectionFinal_eq (connector : Option Connector) (r2 : ℚ) (s : HookState)
    (j : Nat) (c : ConnectionState) (creds : Option Creds)
    (hc : s.connections.get? j = some c) (hpid : c.platformId ≠ "") :
    runConnectionFinal connector r2 s (j : Int) creds
      = { s with connections := setStatusInt (setStatusInt s.connections (j : Int) Status.connecting) (j : Int) (attemptStatus connector c.platformId creds r2) } := by
  have hget : listGetInt s.connections (j : Int) = some c := by
    rw [listGetInt_natCast]
    exact hc
  unfold runConnectionFinal runConnectionTrace
  rw [hget]
  simp [hpid]

theorem runConnectionFinal_statusAt (connector : Option Connector) (r2 : ℚ) (s : HookState)
    (j : Nat) (c : ConnectionState) (creds : Option Creds)
    (hc : s.connections.get? j = some c) (hpid : c.platformId ≠ "") :
    statusAt (runConnectionFinal connector r2 s (j : Int) creds).connections j
      = some (attemptStatus connector c.platformId creds r2) := by
  have hj : j < s.connections.length := (List.get?_eq_some.mp hc).1
  rw [runConnectionFinal_eq connector r2 s j c creds hc hpid]
  exact statusAt_setStatusInt_self _ j _ (by rw [length_setStatusInt]; exact hj)

/-- Claim C3: an attempt (auto-run or retry) whose connector call rejects
records status `'error'` on its target record, and the failure is fully
absorbed into ledger state: the `catch` branch turns the rejection into a
ledger write and `runConnection` / `retryConnection` return a plain state —
there is no failure path out of the orchestrator. -/
theorem claim3_connector_exn_absorbed (f : Connector) (r2 : ℚ) (s : HookState)
    (j : Nat) (c : ConnectionState) (creds : Option Creds)
    (hc : s.connections.get? j = some c) (hpid : c.platformId ≠ "")
    (hexn : f c.platformId creds = ConnectorResult.exn) :
    statusAt (runConnectionFinal (some f) r2 s (j : Int) creds).connections j
        = some Status.error ∧
    statusAt (retryConnection (some f) r2 s (j : Int) creds).connections j
        = some Status.error := by
  have h := runConnectionFinal_statusAt (some f) r2 s j c creds hc hpid
  have hstat : attemptStatus (some f) c.platformId creds r2 = Status.error := by
    simp [attemptStatus, hexn]
  rw [hstat] at h
  exact ⟨h, h⟩

theorem claim3_connector_exn_absorbed_witness :
    ((initState ["A"]).connections.get? 0
        = some { platformId := "A", status := Status.pending } ∧
      ("A" : String) ≠ "" ∧
      (fun _ _ => ConnectorResult.exn : Connector) "A" none = ConnectorResult.exn ∧
      (statusAt (runConnectionFinal (some (fun _ _ => ConnectorResult.exn)) 0
            (initState ["A"]) (0 : Nat) none).connections 0 = some Status.error ∧
        statusAt (retryConnection (some (fun _ _ => ConnectorResult.exn)) 0
            (initState ["A"]) (0 : Nat) none).connections 0 = some Status.error)) :=
  ⟨by decide, by decide, rfl,
    claim3_connector_exn_absorbed (fun _ _ => ConnectorResult.exn) 0 (initState ["A"]) 0
      { platformId := "A", status := Status.pending } none (by decide) (by decide) rfl⟩

/-- Claim C9: with no connector supplied, an attempt on a valid record waits
the randomized mock delay `1500 + r1 * 1500`, which lies in `[1500, 3000)`
for every random draw `r1 ∈ [0, 1)`, and then records `'success'` exactly
when the draw `r2` exceeds `0.1` (`Math.random() > 0.1`; for a uniform draw
the success set is the interval `(1/10, 1)` of measure `9/10`, i.e.
probability 0.9), else `'error'` — so the record always reaches a terminal
status and never stays `'connecting'`. -/
theorem claim9_fallback (r1 r2 : ℚ) (s : HookState) (j : Nat) (c : ConnectionState)
    (creds : Option Creds)
    (h0 : 0 ≤ r1) (h1 : r1 < 1) (_h2 : 0 ≤ r2) (_h3 : r2 < 1)
    (hc : s.connections.get? j = some c) (hpid : c.platformId ≠ "") :
    (1500 ≤ fallbackDelay r1 ∧ fallbackDelay r1 < 3000) ∧
    (statusAt (runConnectionFinal none r2 s (j : Int) creds).connections j
        = some Status.success ∨
      statusAt (runConnectionFinal none r2 s (j : Int) creds).connections j
        = some Status.error) ∧
    (statusAt (runConnectionFinal none r2 s (j : Int) creds).connections j
        = some Status.success ↔ (1 : ℚ) / 10 < r2) ∧
    MeasureTheory.volume (Set.Ioo ((1 : ℝ) / 10) 1) = ENNReal.ofReal (9 / 10) := by
  have hstat := runConnectionFinal_statusAt none r2 s j c creds hc hpid
  refine ⟨⟨?_, ?_⟩, ?_, ?_, ?_⟩
  · unfold fallbackDelay
    nlinarith
  · unfold fallbackDelay
    nlinarith
  · by_cases hr : (1 : ℚ) / 10 < r2
    · left
      rw [hstat]
      simp only [attemptStatus, if_pos hr]
    · right
      rw [hstat]
      simp only [attemptStatus, if_neg hr]
  · rw [hstat]
    by_cases hr : (1 : ℚ) / 10 < r2
    · simp only [attemptStatus, if_pos hr]
      simpa using hr
    · simp only [attemptStatus, if_neg hr]
      push_neg at hr
      simpa using hr
  · rw [Real.volume_Ioo]
    norm_num

theorem claim9_fallback_witness :
    ((0 : ℚ) ≤ 1 / 2 ∧ (1 : ℚ) / 2 < 1 ∧ (0 : ℚ) ≤ 1 / 2 ∧ (1 : ℚ) / 2 < 1 ∧
      (initState ["A"]).connections.get? 0
        = some { platformId := "A", status := Status.pending } ∧
      ("A" : String) ≠ "" ∧
      ((1500 ≤ fallbackDelay (1 / 2) ∧ fallbackDelay (1 / 2) < 3000) ∧
        (statusAt (runConnectionFinal none (1 / 2) (initState ["A"]) ((0 : Nat) : Int)
              none).connections 0 = some Status.success ∨
          statusAt (runConnectionFinal none (1 / 2) (initState ["A"]) ((0 : Nat) : Int)
              none).connections 0 = some Status.error) ∧
        (statusAt (runConnectionFinal none (1 / 2) (initState ["A"]) ((0 : Nat) : Int)
              none).connections 0 = some Status.success ↔ (1 : ℚ) / 10 < 1 / 2) ∧
        MeasureTheory.volume (Set.Ioo ((1 : ℝ) / 10) 1) = ENNReal.ofReal (9 / 10))) :=
  ⟨by norm_num, by norm_num, by norm_num, by norm_num, by decide, by decide,
    claim9_fallback (1 / 2) (1 / 2) (initState ["A"]) 0
      { platformId := "A", status := Status.pending } none (by norm_num) (by norm_num)
      (by norm_num) (by norm_num) (by decide) (by decide)⟩

theorem stepEv_startCheck (autoStart : Bool) (connector : Option Connector) (r2 : ℚ)
    (s : HookState) :
    stepEv autoStart connector r2 s Ev.startCheck
      = if autoStart = true ∧ s.currentIndex = -1 ∧ 0 < s.connections.length then
          { s with currentIndex := 0 }
        else s := rfl

theorem stepEv_seqStep (autoStart : Bool) (connector : Option Connector) (r2 : ℚ)
    (s : HookState) :
    stepEv autoStart connector r2 s Ev.seqStep
      = if 0 ≤ s.currentIndex ∧ s.currentIndex < (s.connections.length : Int) then
          (if s.currentIndex < (s.connections.length : Int) - 1 then
            { runConnectionFinal connector r2 s s.currentIndex none with
                currentIndex := s.currentIndex + 1 }
          else
            { runConnectionFinal connector r2 s s.currentIndex none with
                allComplete := true })
        else s := rfl

theorem stepEv_retry (autoStart : Bool) (connector : Option Connector) (r2 : ℚ)
    (s : HookState) (index : Int) (creds : Option Creds) :
    stepEv autoStart connector r2 s (Ev.retry index creds)
      = retryConnection connector r2 s index creds := rfl

theorem platformId_runConnectionTrace (connector : Option Connector) (r2 : ℚ)
    (s : HookState) (index : Int) (creds : Option Creds) :
    ∀ t ∈ runConnectionTrace connector r2 s index creds,
      t.connections.map (fun x => x.platformId)
        = s.connections.map (fun x => x.platformId) := by
  intro t ht
  unfold runConnectionTrace at ht
  split at ht
  · simp only [List.mem_singleton] at ht
    rw [ht]
  · split at ht
    · simp only [List.mem_singleton] at ht
      rw [ht]
    · simp only [List.mem_cons, List.not_mem_nil, or_false] at ht
      rcases ht with rfl | rfl | rfl
      · rfl
      · exact platformId_setStatusInt s.connections index Status.connecting
      · show ((setStatusInt (setStatusInt s.connections index Status.connecting) index
            _).map (fun x => x.platformId)) = s.connections.map (fun x => x.platformId)
        rw [platformId_setStatusInt, platformId_setStatusInt]

theorem platformId_runConnectionFinal (connector : Option Connector) (r2 : ℚ)
    (s : HookState) (index : Int) (creds : Option Creds) :
    (runConnectionFinal connector r2 s index creds).connections.map (fun x => x.platformId)
      = s.connections.map (fun x => x.platformId) := by
  unfold runConnectionFinal runConnectionTrace
  split
  · rfl
  · split
    · rfl
    · show ((setStatusInt (setStatusInt s.connections index Status.connecting) index
          _).map (fun x => x.platformId)) = s.connections.map (fun x => x.platformId)
      rw [platformId_setStatusInt, platformId_setStatusInt]

/-- Claim C7: every operation of the orchestrator — the auto-start effect, a
sequencer step (including the completion write), a retry, and every
intermediate write of `runConnection` — preserves the ledger's shape: the
number of records, their order, and each record's `platformId` never change;
every ledger write is `prev.map((c, i) => i === index ? { ...c, status } : c)`,
which can only replace a record's `status`. -/
theorem claim7_ledger_shape (autoStart : Bool) (connector : Option Connector) (r2 : ℚ)
    (s : HookState) (e : Ev) (index : Int) (creds : Option Creds) :
    ((stepEv autoStart connector r2 s e).connections.map (fun x => x.platformId)
        = s.connections.map (fun x => x.platformId)) ∧
    ((stepEv autoStart connector r2 s e).connections.length = s.connections.length) ∧
    (∀ t ∈ runConnectionTrace connector r2 s index creds,
      t.connections.map (fun x => x.platformId)
        = s.connections.map (fun x => x.platformId)) := by
  have hstep : (stepEv autoStart connector r2 s e).connections.map (fun x => x.platformId)
      = s.connections.map (fun x => x.platformId) := by
    cases e with
    | startCheck =>
      rw [stepEv_startCheck]
      split <;> rfl
    | seqStep =>
      rw [stepEv_seqStep]
      split
      · split
        · exact platformId_runConnectionFinal connector r2 s s.currentIndex none
        · exact platformId_runConnectionFinal connector r2 s s.currentIndex none
      · rfl
    | retry ix cr =>
      rw [stepEv_retry]
      exact platformId_runConnectionFinal connector r2 s ix cr
  refine ⟨hstep, ?_, platformId_runConnectionTrace connector r2 s index creds⟩
  have hlen := congrArg List.length hstep
  simpa using hlen

theorem claim7_ledger_shape_witness :
    ((stepEv true none 0 (initState ["A"]) Ev.seqStep).connections.map
        (fun x => x.platformId)
      = (initState ["A"]).connections.map (fun x => x.platformId)) ∧
    (initState ["A"]) ∈ runConnectionTrace none 0 (initState ["A"]) 0 none ∧
    ((initState ["A"]).connections.map (fun x => x.platformId)
      = (initState ["A"]).connections.map (fun x => x.platformId)) :=
  ⟨(claim7_ledger_shape true none 0 (initState ["A"]) Ev.seqStep 0 none).1,
    by decide,
    (claim7_ledger_shape true none 0 (initState ["A"]) Ev.seqStep 0 none).2.2
      (initState ["A"]) (by decide)⟩

/-- Claim C10: with `autoStart = false` the sequencer never starts: under any
sequence of non-retry operations the state stays exactly the freshly
constructed one — `currentIndex` remains the sentinel `-1`, every record
stays `'pending'` and `allComplete` never becomes true.  Since the hook only
returns `connections`, `allComplete`, `successCount` and `retryConnection`,
the retry is the only exposed operation that can change a record's status. -/
theorem claim10_no_autoStart (ids : List String) (connector : Option Connector) (r2 : ℚ)
    (evs : List Ev) (hr : ∀ e ∈ evs, e.isRetry = false) :
    evs.foldl (stepEv false connector r2) (initState ids) = initState ids ∧
    (evs.foldl (stepEv false connector r2) (initState ids)).currentIndex = -1 ∧
    (∀ c ∈ (evs.foldl (stepEv false connector r2) (initState ids)).connections,
      c.status = Status.pending) ∧
    (evs.foldl (stepEv false connector r2) (initState ids)).allComplete = false := by
  have hstep : ∀ e : Ev, e.isRetry = false →
      stepEv false connector r2 (initState ids) e = initState ids := by
    intro e he
    cases e with
    | startCheck => simp [stepEv]
    | seqStep => simp [stepEv, initState]
    | retry ix cr => simp [Ev.isRetry] at he
  have hfold : ∀ evs2 : List Ev, (∀ e ∈ evs2, e.isRetry = false) →
      evs2.foldl (stepEv false connector r2) (initState ids) = initState ids := by
    intro evs2
    induction evs2 with
    | nil => intro _; rfl
    | cons e t ih =>
      intro h2
      rw [List.foldl_cons, hstep e (h2 e (List.mem_cons_self e t))]
      exact ih (fun e2 he2 => h2 e2 (List.mem_cons_of_mem e he2))
  have hf := hfold evs hr
  rw [hf]
  exact ⟨rfl, rfl, every_initState_pending ids, rfl⟩

theorem claim10_no_autoStart_witness :
    (∀ e ∈ ([Ev.startCheck, Ev.seqStep] : List Ev), e.isRetry = false) ∧
    (([Ev.startCheck, Ev.seqStep] : List Ev).foldl (stepEv false none 0)
        (initState ["A"]) = initState ["A"] ∧
      (([Ev.startCheck, Ev.seqStep] : List Ev).foldl (stepEv false none 0)
          (initState ["A"])).currentIndex = -1 ∧
      (∀ c ∈ (([Ev.startCheck, Ev.seqStep] : List Ev).foldl (stepEv false none 0)
          (initState ["A"])).connections, c.status = Status.pending) ∧
      (([Ev.startCheck, Ev.seqStep] : List Ev).foldl (stepEv false none 0)
          (initState ["A"])).allComplete = false) :=
  ⟨by decide,
    claim10_no_autoStart ["A"] none 0 [Ev.startCheck, Ev.seqStep] (by decide)⟩

/-- Claim C8: a late-resolving deferred write from a discarded or superseded
run never reaches a ledger that is not its own: if the issuing run is no
longer live the write changes nothing at all, and the ledger of every other
run — in particular the fresh ledger of a replacement run — is untouched by
it. -/
theorem claim8_stale_write_isolated (w : World) (rid rid2 : Nat)
    (f : HookState → HookState) :
    ((∀ p ∈ w.runs, p.1 ≠ rid) → deferredWrite w rid f = w) ∧
    (rid2 ≠ rid → World.ledgerOf (deferredWrite w rid f) rid2 = World.ledgerOf w rid2) := by
  constructor
  · intro hdead
    unfold deferredWrite
    have hmap : ∀ l : List (Nat × HookState), (∀ p ∈ l, p.1 ≠ rid) →
        l.map (fun p => if p.1 = rid then (p.1, f p.2) else p) = l := by
      intro l hl
      induction l with
      | nil => rfl
      | cons p ps ih =>
        rw [List.map_cons, if_neg (hl p (List.mem_cons_self p ps)),
          ih (fun q hq => hl q (List.mem_cons_of_mem p hq))]
    rw [hmap w.runs hdead]
  · intro hne
    have hfind : ∀ l : List (Nat × HookState),
        (l.map (fun p => if p.1 = rid then (p.1, f p.2) else p)).find?
            (fun p => p.1 == rid2)
          = l.find? (fun p => p.1 == rid2) := by
      intro l
      induction l with
      | nil => rfl
      | cons p ps ih =>
        by_cases hp : p.1 = rid
        · have hb : (p.1 == rid2) = false := by
            refine beq_false_of_ne ?_
            rw [hp]
            exact fun h => hne h.symm
          simp only [List.map_cons, if_pos hp, List.find?_cons]
          rw [hb]
          exact ih
        · simp only [List.map_cons, if_neg hp, List.find?_cons]
          cases hb : (p.1 == rid2) with
          | true => rfl
          | false => exact ih
    unfold deferredWrite World.ledgerOf
    rw [hfind w.runs]

theorem claim8_stale_write_isolated_witness :
    ((∀ p ∈ (World.mk [(1, initState ["A"])]).runs, p.1 ≠ 0) ∧
      deferredWrite (World.mk [(1, initState ["A"])]) 0
          (fun s => { s with allComplete := true })
        = World.mk [(1, initState ["A"])]) ∧
    ((1 : Nat) ≠ 0 ∧
      World.ledgerOf (deferredWrite (World.mk [(1, initState ["A"])]) 0
          (fun s => { s with allComplete := true })) 1
        = World.ledgerOf (World.mk [(1, initState ["A"])]) 1) :=
  ⟨⟨by decide,
      (claim8_stale_write_isolated (World.mk [(1, initState ["A"])]) 0 1
        (fun s => { s with allComplete := true })).1 (by decide)⟩,
    ⟨by decide,
      (claim8_stale_write_isolated (World.mk [(1, initState ["A"])]) 0 1
        (fun s => { s with allComplete := true })).2 (by decide)⟩⟩

theorem toStatus_ne_connecting (o : ConnectorOutcome) : o.toStatus ≠ Status.connecting := by
  cases o <;> simp [ConnectorOutcome.toStatus]

theorem statusAt_initState (ids : List String) (k : Nat) :
    statusAt (initState ids).connections k = some Status.pending ∨
      (initState ids).connections.get? k = none := by
  unfold initState statusAt
  cases h : (ids.map (fun id => ({ platformId := id, status := Status.pending } : ConnectionState))).get? k with
  | none => exact Or.inr rfl
  | some c =>
    left
    have hmem := List.get?_mem h
    simp only [List.mem_map] at hmem
    obtain ⟨id, _, rfl⟩ := hmem
    rfl

theorem pidAt_setStatusInt (conns : List ConnectionState) (index : Int) (st : Status)
    (k : Nat) : pidAt (setStatusInt conns index st) k = pidAt conns k := by
  rw [pidAt, get?_setStatusInt, pidAt]
  cases conns.get? k with
  | none => rfl
  | some c => by_cases h : (k : Int) = index <;> simp [h]

theorem pidAt_initState (ids : List String) (k : Nat) :
    pidAt (initState ids).connections k = ids.get? k := by
  simp only [pidAt, initState, List.get?_eq_getElem?, List.getElem?_map]
  cases ids[k]? <;> rfl

theorem no_connecting_of_settled (ids : List String) (o : Nat → ConnectorOutcome)
    (conns : List ConnectionState) (i : Nat)
    (hpre : ∀ k, k < i →
      (if ids.get? k = some "" then statusAt conns k = some Status.pending
        else statusAt conns k = some ((o k).toStatus)))
    (hpend : ∀ k, i ≤ k → statusAt conns k = some Status.pending ∨ conns.get? k = none) :
    ∀ j, ¬ statusAt conns j = some Status.connecting := by
  intro j hj
  rcases Nat.lt_or_ge j i with hlt | hge
  · have h := hpre j hlt
    split at h
    · rw [h] at hj
      exact Status.noConfusion (Option.some.inj hj)
    · rw [h] at hj
      exact toStatus_ne_connecting (o j) (Option.some.inj hj)
  · rcases hpend j hge with h | h
    · rw [h] at hj
      exact Status.noConfusion (Option.some.inj hj)
    · have hn : statusAt conns j = none := by
        rw [statusAt, h]
        rfl
      rw [hn] at hj
      exact Option.noConfusion hj

theorem autoTraceAux_ordered (ids : List String) (o : Nat → ConnectorOutcome)
    (d : Nat → Nat) :
    ∀ (fuel : Nat) (conns : List ConnectionState) (i t : Nat),
      (∀ k, pidAt conns k = ids.get? k) →
      (∀ k, k < i →
        (if ids.get? k = some "" then statusAt conns k = some Status.pending
          else statusAt conns k = some ((o k).toStatus))) →
      (∀ k, i ≤ k → statusAt conns k = some Status.pending ∨ conns.get? k = none) →
      t = startTimeF ids d i →
      ∀ s ∈ autoTraceAux o d fuel conns i t,
        ∀ j, statusAt s.conns j = some Status.connecting →
          (ids.get? j ≠ some "" ∧
            (∀ k, k < j →
              (if ids.get? k = some "" then statusAt s.conns k = some Status.pending
                else statusAt s.conns k = some ((o k).toStatus))) ∧
            (∀ k, j < k → statusAt s.conns k = some Status.pending ∨ s.conns.get? k = none) ∧
            s.time = startTimeF ids d j)
  | 0, conns, i, t => by
    intro _ _ _ _ s hs
    simp [autoTraceAux] at hs
  | fuel + 1, conns, i, t => by
    intro hpid hpre hpend hts s hs
    have hcast : ∀ k : Nat, k ≠ i → (k : Int) ≠ (i : Int) := by
      intro k hk
      exact_mod_cast hk
    unfold autoTraceAux at hs
    split at hs
    case isTrue hi =>
      split at hs
      case h_1 heq =>
        rw [listGetInt_natCast] at heq
        exact absurd hi (Nat.not_lt.mpr (List.get?_eq_none.mp heq))
      case h_2 c heq =>
        have hgi : conns.get? i = some c := by
          rw [← listGetInt_natCast]
          exact heq
        split at hs
        case isTrue hpE =>
          have hskip : ids.get? i = some "" := by
            rw [← hpid i, pidAt, hgi]
            show some c.platformId = some ""
            rw [hpE]
          have hpre1 : ∀ k, k < i + 1 →
              (if ids.get? k = some "" then statusAt conns k = some Status.pending
                else statusAt conns k = some ((o k).toStatus)) := by
            intro k hk
            rcases Nat.lt_or_ge k i with hlt | hge
            · exact hpre k hlt
            · have hki : k = i := by omega
              subst hki
              rw [if_pos hskip]
              rcases hpend k (Nat.le_refl k) with h | h
              · exact h
              · rw [hgi] at h
                exact Option.noConfusion h
          have hpend1 : ∀ k, i + 1 ≤ k →
              statusAt conns k = some Status.pending ∨ conns.get? k = none :=
            fun k hk => hpend k (by omega)
          split at hs
          case isTrue hi1 =>
            refine autoTraceAux_ordered ids o d fuel conns (i + 1) (t + 500)
              hpid hpre1 hpend1 ?_ s hs
            rw [hts]
            show startTimeF ids d i + 500
              = startTimeF ids d i + attemptDuration ids d i + 500
            unfold attemptDuration
            rw [if_pos hskip]
          case isFalse hi1 =>
            simp only [List.mem_singleton] at hs
            subst hs
            intro j hj
            exact absurd hj (no_connecting_of_settled ids o conns (i + 1) hpre1 hpend1 j)
        case isFalse hpE =>
          have hpi : ids.get? i = some c.platformId := by
            rw [← hpid i, pidAt, hgi]
            rfl
          have hskip_not : ids.get? i ≠ some "" := by
            rw [hpi]
            intro h
            exact hpE (Option.some.inj h)
          have hc1i : statusAt (setStatusInt conns (i : Int) Status.connecting) i
              = some Status.connecting := statusAt_setStatusInt_self conns i _ hi
          have hc1ne : ∀ k, k ≠ i →
              statusAt (setStatusInt conns (i : Int) Status.connecting) k
                = statusAt conns k :=
            fun k hk => statusAt_setStatusInt_ne conns (i : Int) _ k (hcast k hk)
          have hc2i : statusAt (setStatusInt (setStatusInt conns (i : Int)
              Status.connecting) (i : Int) ((o i).toStatus)) i = some ((o i).toStatus) := by
            refine statusAt_setStatusInt_self _ i _ ?_
            rw [length_setStatusInt]
            exact hi
          have hc2ne : ∀ k, k ≠ i →
              statusAt (setStatusInt (setStatusInt conns (i : Int) Status.connecting)
                (i : Int) ((o i).toStatus)) k = statusAt conns k := by
            intro k hk
            rw [statusAt_setStatusInt_ne _ (i : Int) _ k (hcast k hk), hc1ne k hk]
          have hpid2 : ∀ k, pidAt (setStatusInt (setStatusInt conns (i : Int)
              Status.connecting) (i : Int) ((o i).toStatus)) k = ids.get? k := by
            intro k
            rw [pidAt_setStatusInt, pidAt_setStatusInt]
            exact hpid k
          have hpre2 : ∀ k, k < i + 1 →
              (if ids.get? k = some "" then
                statusAt (setStatusInt (setStatusInt conns (i : Int) Status.connecting)
                  (i : Int) ((o i).toStatus)) k = some Status.pending
              else
                statusAt (setStatusInt (setStatusInt conns (i : Int) Status.connecting)
                  (i : Int) ((o i).toStatus)) k = some ((o k).toStatus)) := by
            intro k hk
            rcases eq_or_ne k i with rfl | hne
            · rw [if_neg hskip_not]
              exact hc2i
            · have hklt : k < i := by omega
              have h := hpre k hklt
              by_cases hP : ids.get? k = some ""
              · rw [if_pos hP] at h ⊢
                rw [hc2ne k hne]
                exact h
              · rw [if_neg hP] at h ⊢
                rw [hc2ne k hne]
                exact h
          have hpend2 : ∀ k, i + 1 ≤ k →
              statusAt (setStatusInt (setStatusInt conns (i : Int) Status.connecting)
                  (i : Int) ((o i).toStatus)) k = some Status.pending ∨
                (setStatusInt (setStatusInt conns (i : Int) Status.connecting)
                  (i : Int) ((o i).toStatus)).get? k = none := by
            intro k hk
            have hne : k ≠ i := by omega
            rcases hpend k (by omega) with h | h
            · left
              rw [hc2ne k hne]
              exact h
            · right
              rw [get?_setStatusInt_none, get?_setStatusInt_none]
              exact h
          simp only [List.mem_cons] at hs
          rcases hs with rfl | rfl | hs
          · intro j hj
            have hji : j = i := by
              by_contra hne
              rw [hc1ne j hne] at hj
              exact no_connecting_of_settled ids o conns i hpre hpend j hj
            subst hji
            refine ⟨hskip_not, ?_, ?_, hts⟩
            · intro k hk
              have hne : k ≠ j := Nat.ne_of_lt hk
              have h := hpre k hk
              by_cases hP : ids.get? k = some ""
              · rw [if_pos hP] at h ⊢
                rw [hc1ne k hne]
                exact h
              · rw [if_neg hP] at h ⊢
                rw [hc1ne k hne]
                exact h
            · intro k hk
              rcases hpend k (Nat.le_of_lt hk) with h | h
              · left
                rw [hc1ne k (Nat.ne_of_gt hk)]
                exact h
              · right
                rw [get?_setStatusInt_none]
                exact h
          · intro j hj
            exact absurd hj
              (no_connecting_of_settled ids o _ (i + 1) hpre2 hpend2 j)
          · split at hs
            case isTrue hi1 =>
              refine autoTraceAux_ordered ids o d fuel _ (i + 1) (t + d i + 500)
                hpid2 hpre2 hpend2 ?_ s hs
              rw [hts]
              show startTimeF ids d i + d i + 500
                = startTimeF ids d i + attemptDuration ids d i + 500
              unfold attemptDuration
              rw [if_neg hskip_not]
            case isFalse hi1 =>
              simp only [List.mem_singleton] at hs
              subst hs
              intro j hj
              exact absurd hj
                (no_connecting_of_settled ids o _ (i + 1) hpre2 hpend2 j)
    case isFalse hi =>
      simp at hs

/-- Claim C6 (counterexample): for platform ids `["", "B"]` with a connector
outcome oracle that always succeeds, the auto-run reaches, at time 500, a
state in which record 1 is `'connecting'` while record 0 is still `'pending'`
— no outcome for record 0 was ever recorded, because `runConnection`'s falsy
guard skipped the empty-platform-id record and the sequencer advanced after
just the settle delay.  So the sequencer starts attempt 1 before attempt 0's
outcome is recorded, refuting the claim as stated. -/
theorem claim6_cex :
    ((TimedLedger.mk 500
        [ConnectionState.mk "" Status.pending, ConnectionState.mk "B" Status.connecting]
        false)
      ∈ autoTrace ["", "B"] (fun _ => ConnectorOutcome.success) (fun _ => 100)) ∧
    statusAt [ConnectionState.mk "" Status.pending,
        ConnectionState.mk "B" Status.connecting] 1 = some Status.connecting ∧
    statusAt [ConnectionState.mk "" Status.pending,
        ConnectionState.mk "B" Status.connecting] 0 = some Status.pending ∧
    some Status.pending ≠ some ((ConnectorOutcome.success).toStatus) ∧
    some Status.pending ≠ some Status.error :=
  ⟨by decide, rfl, rfl, by decide, by decide⟩

/-- Claim C6 (amended): during an auto-run with no retries the sequencer
walks the ledger in strict forward order: in every reachable state, whenever
the record at position `j` is `'connecting'`, its platform id is non-empty,
every earlier record either carries its recorded outcome (non-empty platform
id) or is still `'pending'` (empty platform id, skipped without writes by
`runConnection`'s falsy guard), and every later record is still `'pending'`
— so no two records are ever simultaneously `'connecting'` — the state is
reached at attempt `j`'s start time, and each start time follows the
previous attempt's resolution time by exactly the settle delay of 500 time
units, where a performed attempt's resolution takes its connector duration
and a skipped attempt resolves immediately.  For runs whose platform ids are
all non-empty this is exactly the claimed property; a skipped record is
passed over with no outcome ever recorded. -/
theorem claim6_autoRun_ordered (ids : List String) (o : Nat → ConnectorOutcome)
    (d : Nat → Nat) (s : TimedLedger) (hs : s ∈ autoTrace ids o d) :
    ((∀ j k, statusAt s.conns j = some Status.connecting →
        statusAt s.conns k = some Status.connecting → j = k) ∧
      (∀ j, statusAt s.conns j = some Status.connecting →
        (ids.get? j ≠ some "" ∧
          (∀ k, k < j →
            (if ids.get? k = some "" then statusAt s.conns k = some Status.pending
              else statusAt s.conns k = some ((o k).toStatus))) ∧
          (∀ k, j < k → statusAt s.conns k = some Status.pending ∨ s.conns.get? k = none) ∧
          s.time = startTimeF ids d j)) ∧
      (∀ i, startTimeF ids d (i + 1) = outcomeTimeF ids d i + 500)) := by
  have hkey : ∀ j, statusAt s.conns j = some Status.connecting →
      (ids.get? j ≠ some "" ∧
        (∀ k, k < j →
          (if ids.get? k = some "" then statusAt s.conns k = some Status.pending
            else statusAt s.conns k = some ((o k).toStatus))) ∧
        (∀ k, j < k → statusAt s.conns k = some Status.pending ∨ s.conns.get? k = none) ∧
        s.time = startTimeF ids d j) := by
    rcases List.mem_cons.mp hs with rfl | hs2
    · intro j hj
      exact absurd hj (no_connecting_of_settled ids o (initState ids).connections 0
        (fun k hk => absurd hk (Nat.not_lt_zero k))
        (fun k _ => statusAt_initState ids k) j)
    · exact autoTraceAux_ordered ids o d ids.length (initState ids).connections 0 0
        (fun k => pidAt_initState ids k)
        (fun k hk => absurd hk (Nat.not_lt_zero k))
        (fun k _ => statusAt_initState ids k) rfl s hs2
  refine ⟨?_, hkey, fun i => rfl⟩
  intro j k hj hk
  rcases Nat.lt_trichotomy j k with h | h | h
  · exfalso
    have hjk := (hkey k hk).2.1 j h
    by_cases hP : ids.get? j = some ""
    · rw [if_pos hP] at hjk
      rw [hjk] at hj
      exact Status.noConfusion (Option.some.inj hj)
    · rw [if_neg hP] at hjk
      rw [hjk] at hj
      exact toStatus_ne_connecting (o j) (Option.some.inj hj)
  · exact h
  · exfalso
    have hkj := (hkey j hj).2.1 k h
    by_cases hP : ids.get? k = some ""
    · rw [if_pos hP] at hkj
      rw [hkj] at hk
      exact Status.noConfusion (Option.some.inj hk)
    · rw [if_neg hP] at hkj
      rw [hkj] at hk
      exact toStatus_ne_connecting (o k) (Option.some.inj hk)

theorem claim6_autoRun_ordered_witness :
    ((TimedLedger.mk 0 (initState ["A"]).connections false)
      ∈ autoTrace ["A"] (fun _ => ConnectorOutcome.success) (fun _ => 100)) ∧
    ((∀ j k, statusAt (TimedLedger.mk 0 (initState ["A"]).connections false).conns j
          = some Status.connecting →
        statusAt (TimedLedger.mk 0 (initState ["A"]).connections false).conns k
          = some Status.connecting → j = k) ∧
      (∀ j, statusAt (TimedLedger.mk 0 (initState ["A"]).connections false).conns j
          = some Status.connecting →
        ((["A"] : List String).get? j ≠ some "" ∧
          (∀ k, k < j →
            (if (["A"] : List String).get? k = some "" then
              statusAt (TimedLedger.mk 0 (initState ["A"]).connections false).conns k
                = some Status.pending
            else
              statusAt (TimedLedger.mk 0 (initState ["A"]).connections false).conns k
                = some (((fun _ => ConnectorOutcome.success) k).toStatus))) ∧
          (∀ k, j < k →
            statusAt (TimedLedger.mk 0 (initState ["A"]).connections false).conns k
                = some Status.pending ∨
              (TimedLedger.mk 0 (initState ["A"]).connections false).conns.get? k
                = none) ∧
          (TimedLedger.mk 0 (initState ["A"]).connections false).time
            = startTimeF ["A"] (fun _ => 100) j)) ∧
      (∀ i, startTimeF ["A"] (fun _ => 100) (i + 1)
        = outcomeTimeF ["A"] (fun _ => 100) i + 500)) :=
  ⟨by decide,
    claim6_autoRun_ordered ["A"] (fun _ => ConnectorOutcome.success) (fun _ => 100)
      (TimedLedger.mk 0 (initState ["A"]).connections false) (by decide)⟩

end AltrionConn
